import Mathlib

/-!
Verification of the CSV English-text extraction program
(`Englisg_filter.py`): a shallow embedding of the quality classifier
`is_quality_english` and the row reducer `extract_quality_english_text`,
together with theorems settling the specification claims.

Modelling conventions:
* Python `str` values are embedded as `List Char` (one entry per code point).
* The regex `\s` / `str.strip` / `str.split` whitespace class is modelled by
  the six ASCII whitespace characters Python's `re` module matches in ASCII
  text; `str.lower` and `str.isalpha` are modelled by their ASCII behaviour
  (`Char.toLower`, `Char.isAlpha`), which coincides with Python on the ASCII
  texts the program's keyword matching is about.
* The float parameter `min_alpha_ratio` (default `0.5`) is embedded as an
  exact rational `min_alpha_num / min_alpha_den` (defaults 1 and 2); the
  float comparison `alpha_chars / len(t) < min_alpha_ratio` becomes the
  exact cross-multiplied comparison
  `alpha_chars * min_alpha_den < min_alpha_num * len(t)`.
* `pandas`/`numpy` behaviour reachable from the embedded lines is modelled
  explicitly: `pd.isna` returns a scalar for scalar arguments and an
  elementwise array for list arguments, and coercing a numpy boolean array
  of length ≠ 1 to `bool` (as `x or y` does) raises a `ValueError`
  (`PyErr.truthAmbiguous` below).
* File I/O is out of scope; the three `pd.read_csv` attempts are abstracted
  as three `Except` parameters whose successes/failures drive the fallback
  chain exactly as the `try`/`except` nesting in the source does.
-/

/-- The ASCII whitespace characters matched by Python's `\s`, `str.strip()`
and `str.split()` on ASCII text: space, tab, newline, carriage return,
vertical tab, form feed. -/
def pyIsSpace (c : Char) : Bool :=
  c == ' ' || c == '\t' || c == '\n' || c == '\r' || c == '\x0b' || c == '\x0c'

/-- `re.sub(r'\s+', ' ', s)`: replace every maximal run of whitespace by a
single space.  The boolean records whether the previous character was part
of a whitespace run already emitted. -/
def collapseAux : Bool → List Char → List Char
  | _, [] => []
  | prev, c :: cs =>
    if pyIsSpace c then
      if prev then collapseAux true cs else ' ' :: collapseAux true cs
    else c :: collapseAux false cs

/-- `str.strip()`: drop whitespace from both ends. -/
def pyStrip (l : List Char) : List Char :=
  ((l.dropWhile pyIsSpace).reverse.dropWhile pyIsSpace).reverse

/-- Line 18 of the source: `re.sub(r'\s+', ' ', str(text)).strip()`. -/
def pyCleaned (l : List Char) : List Char :=
  pyStrip (collapseAux false l)

/-- `str.split()` with no argument: split on whitespace runs, discarding
empty pieces. -/
def pySplit (l : List Char) : List (List Char) :=
  (l.splitOnP pyIsSpace).filter (fun w => !w.isEmpty)

/-- Python's substring test `pat in l` on strings: some suffix of `l`
starts with `pat`. -/
def seqInfixOf (pat l : List Char) : Bool :=
  l.tails.any (fun t => pat.isPrefixOf t)

/-- Line 25 of the source: `re.search(r'X{5,}', cleaned_text)` succeeds
exactly when five consecutive `'X'` occur. -/
def hasXRun (l : List Char) : Bool :=
  seqInfixOf (List.replicate 5 'X') l

/-- The fixed keyword list of lines 40–45 of the source. -/
def common_english_words : List (List Char) :=
  ["the", "and", "for", "you", "are", "your", "will", "have", "from",
   "this", "with", "that", "send", "please", "money", "bank", "account",
   "contact", "code", "number", "phone", "call", "cash", "credit", "payment",
   "free", "claim", "prize", "win", "won", "congratulations", "urgent"].map
    String.data

/-- Line 49 of the source:
`sum(1 for word in common_english_words if f" {word} " in f" {lower_text} ")`.
-/
def countCommonWords (lower : List Char) : Nat :=
  common_english_words.countP
    (fun w => seqInfixOf ((' ' :: w) ++ [' ']) ((' ' :: lower) ++ [' ']))

/-- The string-argument body of `is_quality_english` (lines 14–55 of the
source), for an argument already known to be a non-NA `str`: the
`text.strip() == ''` disjunct of line 14 followed by the cleaned-text
checks.  `min_alpha_num / min_alpha_den` is the exact rational value of the
float `min_alpha_ratio`. -/
def is_quality_english_core (text : List Char)
    (min_words min_alpha_num min_alpha_den min_length : Nat) : Bool :=
  if (pyStrip text).isEmpty then false
  else
    let cleaned_text := pyCleaned text
    if cleaned_text.length < min_length then false
    else if hasXRun cleaned_text then false
    else if (pySplit cleaned_text).length < min_words then false
    else if 0 < cleaned_text.length ∧
        cleaned_text.countP Char.isAlpha * min_alpha_den
          < min_alpha_num * cleaned_text.length then false
    else
      let cnt := countCommonWords (cleaned_text.map Char.toLower)
      if 50 < cleaned_text.length then decide (2 ≤ cnt) else decide (1 ≤ cnt)

/-- Scalar Python values that can reach the classifier from a DataFrame
cell: `None`, `float('nan')`, integers, strings. -/
inductive PyScalar : Type
  | none : PyScalar
  | nan : PyScalar
  | int : Int → PyScalar
  | str : List Char → PyScalar
deriving DecidableEq

/-- A Python object passed to `is_quality_english`: a scalar, or a list
(composite value). -/
inductive PyObj : Type
  | scalar : PyScalar → PyObj
  | list : List PyScalar → PyObj
deriving DecidableEq

/-- Python exceptions relevant to the embedded code paths. -/
inductive PyErr : Type
  | truthAmbiguous : PyErr
  | zeroDivision : PyErr
  | parseError : Nat → PyErr
deriving DecidableEq

/-- The result of `pd.isna`: a scalar bool for scalar input, a numpy
boolean array for list input. -/
inductive IsnaRes : Type
  | scalar : Bool → IsnaRes
  | array : List Bool → IsnaRes
deriving DecidableEq

/-- `pd.isna` on a scalar: true exactly for `None` and NaN. -/
def pdIsnaScalar : PyScalar → Bool
  | PyScalar.none => true
  | PyScalar.nan => true
  | PyScalar.int _ => false
  | PyScalar.str _ => false

/-- `pd.isna`: elementwise on list input, scalar otherwise. -/
def pdIsna : PyObj → IsnaRes
  | PyObj.scalar v => IsnaRes.scalar (pdIsnaScalar v)
  | PyObj.list vs => IsnaRes.array (vs.map pdIsnaScalar)

/-- Coercion of an `pd.isna` result to `bool`, as the short-circuiting
`or` of line 14 performs: a numpy array of length other than one raises
`ValueError` (truth value ambiguous). -/
def npTruth : IsnaRes → Except PyErr Bool
  | IsnaRes.scalar b => Except.ok b
  | IsnaRes.array [b] => Except.ok b
  | IsnaRes.array _ => Except.error PyErr.truthAmbiguous

/-- `is_quality_english(text, min_words, min_alpha_ratio, min_length)`
(lines 5–55 of the source), on an arbitrary Python object.  Line 14 first
coerces `pd.isna(text)` to `bool` (which can raise for composite values),
then tests `isinstance(text, str)`, then delegates to the string body. -/
def is_quality_english (text : PyObj)
    (min_words min_alpha_num min_alpha_den min_length : Nat) :
    Except PyErr Bool := do
  let isNA ← npTruth (pdIsna text)
  if isNA then pure false
  else
    match text with
    | PyObj.scalar (PyScalar.str s) =>
        pure (is_quality_english_core s min_words min_alpha_num
          min_alpha_den min_length)
    | _ => pure false

/-- A loaded DataFrame: ordered column names and rows of cells aligned with
the columns. -/
structure DataFrame : Type where
  cols : List String
  rows : List (List PyScalar)
deriving DecidableEq

/-- Line 91 of the source:
`cell_text = str(row[col]) if not pd.isna(row[col]) else ""`. -/
def cellToText : PyScalar → List Char
  | PyScalar.none => []
  | PyScalar.nan => []
  | PyScalar.int n => (toString n).data
  | PyScalar.str s => s

/-- The sentinel list of line 94 of the source:
`["", "nan", "None", "0", "NaN"]`. -/
def non_text_sentinels : List (List Char) :=
  ["", "nan", "None", "0", "NaN"].map String.data

/-- Lines 91–99 of the source, for one cell: coerce to text, skip sentinel
values, keep the coerced text when the classifier (at its default
parameters) passes. -/
def processCell (v : PyScalar) : Option (List Char) :=
  let cell_text := cellToText v
  if non_text_sentinels.contains (pyStrip cell_text) then Option.none
  else if is_quality_english_core cell_text 4 1 2 15 then Option.some cell_text
  else Option.none

/-- Lines 79–80 of the source: use the caller's columns only when every one
of them occurs in the DataFrame, otherwise all columns. -/
def resolve_text_columns (dfCols : List String)
    (text_columns : Option (List String)) : List String :=
  match text_columns with
  | Option.none => dfCols
  | Option.some cs => if cs.all (fun c => dfCols.contains c) then cs else dfCols

/-- `row[col]`: the cell of `row` at the position of `col` in the column
list. -/
def lookupCell (dfCols : List String) (row : List PyScalar) (c : String) :
    PyScalar :=
  row.getD (dfCols.indexOf c) PyScalar.nan

/-- Lines 87–99 of the source: the passing cell texts of one row, in the
order of the scanned columns. -/
def row_texts (dfCols tcols : List String) (row : List PyScalar) :
    List (List Char) :=
  tcols.filterMap (fun c => processCell (lookupCell dfCols row c))

/-- Stable insertion of `t` into a list sorted by non-increasing length:
`t` is placed in front of the first element that is not longer than `t`,
so among equal lengths earlier-inserted elements stay behind later ones
inserted before them. -/
def insertByLenDesc (t : List Char) : List (List Char) → List (List Char)
  | [] => [t]
  | u :: us =>
    if u.length ≤ t.length then t :: u :: us else u :: insertByLenDesc t us

/-- `sorted(row_texts, key=len, reverse=True)` (line 104 of the source):
a stable sort by non-increasing length — elements of equal length keep
their original relative order, as Python's stable `sorted` guarantees. -/
def pySortByLenDesc : List (List Char) → List (List Char)
  | [] => []
  | t :: ts => insertByLenDesc t (pySortByLenDesc ts)

/-- Line 104 of the source: `sorted(row_texts, key=len, reverse=True)[0]`
(the sorted list is nonempty whenever `row_texts` is). -/
def longest_text (ts : List (List Char)) : List Char :=
  (pySortByLenDesc ts).headD []

/-- Lines 86–105 of the source: the accumulated `all_texts` list — one
entry per row that has at least one passing cell, namely the longest
passing text of that row. -/
def all_texts (df : DataFrame) (tcols : List String) : List (List Char) :=
  df.rows.flatMap (fun row =>
    let ts := row_texts df.cols tcols row
    if ts.isEmpty then [] else [longest_text ts])

/-- First-seen deduplication, threaded through an accumulator of already
seen values. -/
def dedupAux {α : Type} [DecidableEq α] (seen : List α) : List α → List α
  | [] => []
  | x :: xs =>
    if x ∈ seen then dedupAux seen xs else x :: dedupAux (x :: seen) xs

/-- Line 111 of the source: `result_df.drop_duplicates(inplace=True)` —
remove exact duplicates, keeping the first occurrence of each string. -/
def drop_duplicates (l : List (List Char)) : List (List Char) :=
  dedupAux [] l

/-- Lines 62–73 of the source: the three `pd.read_csv` attempts (default,
Latin-1, lenient UTF-8), nested so that the first success wins and, when
the first two fail, the third attempt's outcome — success or error — is
the outcome of loading. -/
def read_csv_chain (r1 r2 r3 : Except PyErr DataFrame) :
    Except PyErr DataFrame :=
  match r1 with
  | Except.ok df => Except.ok df
  | Except.error _ =>
    match r2 with
    | Except.ok df => Except.ok df
    | Except.error _ => r3

/-- The pure row-reduction pipeline of `extract_quality_english_text` on a
loaded DataFrame (lines 78–111 of the source): resolve the column set,
collect the per-row longest passing texts, drop duplicates. -/
def extract_core (df : DataFrame) (text_columns : Option (List String)) :
    List (List Char) :=
  drop_duplicates (all_texts df (resolve_text_columns df.cols text_columns))

/-- `extract_quality_english_text` (lines 57–120 of the source), with the
three `pd.read_csv` attempts abstracted as `Except` parameters: load via
the fallback chain, run the pure pipeline, and — before returning — print
the retention percentage `len(result_df)/total_rows` (line 117), which
raises `ZeroDivisionError` when the DataFrame has zero rows. -/
def extract_quality_english_text (r1 r2 r3 : Except PyErr DataFrame)
    (text_columns : Option (List String)) :
    Except PyErr (List (List Char)) := do
  let df ← read_csv_chain r1 r2 r3
  let total_rows := df.rows.length
  let result := extract_core df text_columns
  if total_rows == 0 then Except.error PyErr.zeroDivision
  else Except.ok result

/-- Specification-side selection: the first occurrence of the maximum
length in the list (ties go to the earlier element). -/
def firstMaxByLen : List (List Char) → List Char
  | [] => []
  | t :: ts =>
    let m := firstMaxByLen ts
    if t.length < m.length then m else t

/-- Specification-side deduplication: keep the first occurrence of each
value, in first-seen order. -/
def firstSeenDedup {α : Type} [DecidableEq α] : List α → List α
  | [] => []
  | x :: xs =>
    x :: firstSeenDedup (xs.filter (fun y => decide (y ≠ x)))
termination_by l => l.length
decreasing_by
  exact Nat.lt_succ_of_le (List.length_filter_le _ _)

/-! ### Helper lemmas about the text primitives -/

/-- `seqInfixOf` decides the contiguous-substring relation. -/
theorem seqInfixOf_iff (pat l : List Char) :
    seqInfixOf pat l = true ↔ pat <:+: l := by
  unfold seqInfixOf
  rw [List.any_eq_true, List.infix_iff_prefix_suffix]
  constructor
  · rintro ⟨t, ht, hp⟩
    exact ⟨t, List.isPrefixOf_iff_prefix.mp hp, (List.mem_tails _ _).mp ht⟩
  · rintro ⟨t, hp, hs⟩
    exact ⟨t, (List.mem_tails _ _).mpr hs, List.isPrefixOf_iff_prefix.mpr hp⟩

/-- Whitespace collapsing never lengthens a string. -/
theorem length_collapseAux_le (l : List Char) :
    ∀ b, (collapseAux b l).length ≤ l.length := by
  induction l with
  | nil => intro b; simp [collapseAux]
  | cons c cs ih =>
    intro b
    by_cases hc : pyIsSpace c = true
    · cases b with
      | true =>
        simp only [collapseAux, hc, if_true, List.length_cons]
        exact Nat.le_succ_of_le (ih true)
      | false =>
        simp only [collapseAux, hc, if_true, if_false, List.length_cons]
        exact Nat.succ_le_succ (ih true)
    · simp only [collapseAux, hc, if_false, List.length_cons]
      exact Nat.succ_le_succ (ih false)

/-- Stripping never lengthens a string. -/
theorem length_pyStrip_le (l : List Char) : (pyStrip l).length ≤ l.length := by
  unfold pyStrip
  calc ((l.dropWhile pyIsSpace).reverse.dropWhile pyIsSpace).reverse.length
      = ((l.dropWhile pyIsSpace).reverse.dropWhile pyIsSpace).length := by
        rw [List.length_reverse]
    _ ≤ (l.dropWhile pyIsSpace).reverse.length :=
        (List.dropWhile_sublist pyIsSpace).length_le
    _ = (l.dropWhile pyIsSpace).length := by rw [List.length_reverse]
    _ ≤ l.length := (List.dropWhile_sublist pyIsSpace).length_le

/-- Normalization (collapse runs, then strip) never lengthens a string. -/
theorem length_pyCleaned_le (l : List Char) :
    (pyCleaned l).length ≤ l.length :=
  Nat.le_trans (length_pyStrip_le _) (length_collapseAux_le l false)

/-- A whitespace-free pattern that is a prefix survives whitespace
collapsing as a prefix. -/
theorem collapseAux_preserves_nonspace_pre (pat : List Char)
    (hns : ∀ c ∈ pat, pyIsSpace c = false) :
    ∀ (l : List Char) (b : Bool), pat <+: l → pat <+: collapseAux b l := by
  induction pat with
  | nil => intro l b _; exact List.nil_prefix
  | cons c cs ih =>
    intro l b hp
    obtain ⟨t, ht⟩ := hp
    subst ht
    have hc : pyIsSpace c = false := hns c (List.mem_cons_self c cs)
    have : collapseAux b (c :: (cs ++ t)) = c :: collapseAux false (cs ++ t) := by
      simp [collapseAux, hc]
    show c :: cs <+: collapseAux b (c :: (cs ++ t))
    rw [this, List.cons_prefix_cons]
    refine ⟨rfl, ih (fun d hd => hns d (List.mem_cons_of_mem c hd)) _ false ?_⟩
    exact List.prefix_append cs t

/-- A whitespace-free contiguous substring survives whitespace collapsing. -/
theorem collapseAux_preserves_nonspace (pat : List Char)
    (hns : ∀ c ∈ pat, pyIsSpace c = false) :
    ∀ (l : List Char) (b : Bool), pat <:+: l → pat <:+: collapseAux b l := by
  intro l
  induction l with
  | nil =>
    intro b h
    rw [List.infix_nil] at h
    subst h
    exact List.nil_infix
  | cons c cs ih =>
    intro b h
    rcases List.infix_cons_iff.mp h with hpre | htail
    · exact (collapseAux_preserves_nonspace_pre pat hns (c :: cs) b hpre).isInfix
    · by_cases hc : pyIsSpace c = true
      · cases b with
        | true =>
          have : collapseAux true (c :: cs) = collapseAux true cs := by
            simp [collapseAux, hc]
          rw [this]; exact ih true htail
        | false =>
          have : collapseAux false (c :: cs) = ' ' :: collapseAux true cs := by
            simp [collapseAux, hc]
          rw [this]; exact List.infix_cons (ih true htail)
      · have hc' : pyIsSpace c = false := by simpa using hc
        have : collapseAux b (c :: cs) = c :: collapseAux false cs := by
          simp [collapseAux, hc']
        rw [this]; exact List.infix_cons (ih false htail)

/-- A nonempty whitespace-free contiguous substring survives
`dropWhile pyIsSpace`. -/
theorem dropWhile_preserves_nonspace (pat : List Char) (hne : pat ≠ [])
    (hns : ∀ c ∈ pat, pyIsSpace c = false) :
    ∀ l : List Char, pat <:+: l → pat <:+: l.dropWhile pyIsSpace := by
  intro l
  induction l with
  | nil =>
    intro h
    rw [List.infix_nil] at h
    exact absurd h hne
  | cons c cs ih =>
    intro h
    by_cases hc : pyIsSpace c = true
    · rcases List.infix_cons_iff.mp h with hpre | htail
      · cases pat with
        | nil => exact absurd rfl hne
        | cons d ds =>
          have hd : d = c := (List.cons_prefix_cons.mp hpre).1
          have := hns d (List.mem_cons_self d ds)
          rw [hd, hc] at this
          exact absurd this (by simp)
      · rw [List.dropWhile_cons, if_pos hc]
        exact ih htail
    · rw [List.dropWhile_cons, if_neg hc]
      exact h

/-- A nonempty whitespace-free contiguous substring survives stripping. -/
theorem pyStrip_preserves_nonspace (pat : List Char) (hne : pat ≠ [])
    (hns : ∀ c ∈ pat, pyIsSpace c = false) (l : List Char)
    (h : pat <:+: l) : pat <:+: pyStrip l := by
  unfold pyStrip
  have h1 : pat <:+: l.dropWhile pyIsSpace :=
    dropWhile_preserves_nonspace pat hne hns l h
  have h2 : pat.reverse <:+: (l.dropWhile pyIsSpace).reverse :=
    List.reverse_infix.mpr h1
  have hne' : pat.reverse ≠ [] := by
    intro hrev
    exact hne (by simpa using congrArg List.reverse hrev)
  have hns' : ∀ c ∈ pat.reverse, pyIsSpace c = false := by
    intro c hc
    exact hns c (List.mem_reverse.mp hc)
  have h3 : pat.reverse <:+: (l.dropWhile pyIsSpace).reverse.dropWhile pyIsSpace :=
    dropWhile_preserves_nonspace pat.reverse hne' hns' _ h2
  have h4 := List.reverse_infix.mpr h3
  rwa [List.reverse_reverse] at h4

/-- A nonempty whitespace-free contiguous substring of the raw text is
still a contiguous substring of the normalized text. -/
theorem pyCleaned_preserves_nonspace (pat : List Char) (hne : pat ≠ [])
    (hns : ∀ c ∈ pat, pyIsSpace c = false) (l : List Char)
    (h : pat <:+: l) : pat <:+: pyCleaned l :=
  pyStrip_preserves_nonspace pat hne hns _
    (collapseAux_preserves_nonspace pat hns l false h)

/-! ### Helper lemmas about the sort and the deduplication -/

/-- The head of a stable length-descending insertion. -/
theorem headD_insertByLenDesc (t : List Char) (s : List (List Char)) :
    (insertByLenDesc t s).headD [] =
      if (s.headD []).length ≤ t.length then t else s.headD [] := by
  cases s with
  | nil => simp [insertByLenDesc]
  | cons u us =>
    by_cases h : u.length ≤ t.length
    · simp [insertByLenDesc, h]
    · simp [insertByLenDesc, h]

/-- The head of the stable descending sort is the first occurrence of the
maximum length — the specification's tie-breaking rule. -/
theorem longest_text_eq_firstMaxByLen (ts : List (List Char)) :
    longest_text ts = firstMaxByLen ts := by
  induction ts with
  | nil => rfl
  | cons t ts ih =>
    unfold longest_text at ih ⊢
    unfold pySortByLenDesc firstMaxByLen
    rw [headD_insertByLenDesc, ih]
    by_cases h : (firstMaxByLen ts).length ≤ t.length
    · rw [if_pos h, if_neg (by omega)]
    · rw [if_neg h, if_pos (by omega)]

/-- Elements of `dedupAux seen l` are exactly the elements of `l` outside
`seen`. -/
theorem mem_dedupAux {α : Type} [DecidableEq α] (seen l : List α) (y : α) :
    y ∈ dedupAux seen l ↔ y ∈ l ∧ y ∉ seen := by
  induction l generalizing seen with
  | nil => simp [dedupAux]
  | cons x xs ih =>
    by_cases hx : x ∈ seen
    · rw [show dedupAux seen (x :: xs) = dedupAux seen xs from by
        simp [dedupAux, hx]]
      rw [ih]
      constructor
      · rintro ⟨h1, h2⟩
        exact ⟨List.mem_cons_of_mem x h1, h2⟩
      · rintro ⟨h1, h2⟩
        rcases List.mem_cons.mp h1 with rfl | h1
        · exact absurd hx h2
        · exact ⟨h1, h2⟩
    · rw [show dedupAux seen (x :: xs) = x :: dedupAux (x :: seen) xs from by
        simp [dedupAux, hx]]
      simp only [List.mem_cons, ih, List.mem_cons, not_or]
      constructor
      · rintro (rfl | ⟨h1, h2, h3⟩)
        · exact ⟨Or.inl rfl, hx⟩
        · exact ⟨Or.inr h1, h3⟩
      · rintro ⟨rfl | h1, h2⟩
        · exact Or.inl rfl
        · by_cases hyx : y = x
          · exact Or.inl hyx
          · exact Or.inr ⟨h1, hyx, h2⟩

/-- `dedupAux` emits no duplicates. -/
theorem nodup_dedupAux {α : Type} [DecidableEq α] (seen l : List α) :
    (dedupAux seen l).Nodup := by
  induction l generalizing seen with
  | nil => simp [dedupAux]
  | cons x xs ih =>
    by_cases hx : x ∈ seen
    · rw [show dedupAux seen (x :: xs) = dedupAux seen xs from by
        simp [dedupAux, hx]]
      exact ih seen
    · rw [show dedupAux seen (x :: xs) = x :: dedupAux (x :: seen) xs from by
        simp [dedupAux, hx]]
      refine List.nodup_cons.mpr ⟨?_, ih (x :: seen)⟩
      intro hmem
      exact ((mem_dedupAux _ _ _).mp hmem).2 (List.mem_cons_self x seen)

/-- `dedupAux` is a sublist of its input: kept elements keep their order. -/
theorem dedupAux_sublist {α : Type} [DecidableEq α] (seen l : List α) :
    (dedupAux seen l).Sublist l := by
  induction l generalizing seen with
  | nil => simp [dedupAux]
  | cons x xs ih =>
    by_cases hx : x ∈ seen
    · rw [show dedupAux seen (x :: xs) = dedupAux seen xs from by
        simp [dedupAux, hx]]
      exact (ih seen).cons x
    · rw [show dedupAux seen (x :: xs) = x :: dedupAux (x :: seen) xs from by
        simp [dedupAux, hx]]
      exact (ih (x :: seen)).cons₂ x

/-- `dedupAux seen` computes the first-seen deduplication of the input with
the already-seen values filtered away. -/
theorem dedupAux_eq_firstSeenDedup {α : Type} [DecidableEq α]
    (seen l : List α) :
    dedupAux seen l = firstSeenDedup (l.filter (fun y => decide (y ∉ seen))) := by
  induction l generalizing seen with
  | nil => simp [dedupAux, firstSeenDedup]
  | cons x xs ih =>
    by_cases hx : x ∈ seen
    · rw [show dedupAux seen (x :: xs) = dedupAux seen xs from by
        simp [dedupAux, hx]]
      rw [show (x :: xs).filter (fun y => decide (y ∉ seen)) =
          xs.filter (fun y => decide (y ∉ seen)) from by
        simp [List.filter_cons, hx]]
      exact ih seen
    · rw [show dedupAux seen (x :: xs) = x :: dedupAux (x :: seen) xs from by
        simp [dedupAux, hx]]
      rw [show (x :: xs).filter (fun y => decide (y ∉ seen)) =
          x :: xs.filter (fun y => decide (y ∉ seen)) from by
        simp [List.filter_cons, hx]]
      rw [show firstSeenDedup (x :: xs.filter (fun y => decide (y ∉ seen))) =
          x :: firstSeenDedup ((xs.filter (fun y => decide (y ∉ seen))).filter
            (fun y => decide (y ≠ x))) from by
        simp only [ firstSeenDedup]]
      rw [List.filter_filter]
      rw [ih (x :: seen)]
      refine congrArg (fun l => x :: firstSeenDedup l) (List.filter_congr ?_)
      intro y _
      by_cases h1 : y = x
      · simp [h1]
      · by_cases h2 : y ∈ seen
        · simp [h1, h2]
        · simp [h1, h2]

/-- `drop_duplicates` is exactly first-seen deduplication. -/
theorem drop_duplicates_eq_firstSeenDedup (l : List (List Char)) :
    drop_duplicates l = firstSeenDedup l := by
  unfold drop_duplicates
  rw [dedupAux_eq_firstSeenDedup]
  congr 1
  rw [show (fun y : List Char => decide (y ∉ ([] : List (List Char)))) =
      (fun _ : List Char => true) from by
    funext y
    simp]
  exact List.filter_true l

/-- A `flatMap` whose pieces have at most one element yields at most one
output entry per input entry. -/
theorem length_flatMap_le_of_piece_le_one {α β : Type}
    (f : α → List β) (l : List α) (h : ∀ x ∈ l, (f x).length ≤ 1) :
    (l.flatMap f).length ≤ l.length := by
  induction l with
  | nil => simp
  | cons x xs ih =>
    rw [List.flatMap_cons, List.length_append, List.length_cons]
    have h1 : (f x).length ≤ 1 := h x (List.mem_cons_self x xs)
    have h2 : (xs.flatMap f).length ≤ xs.length :=
      ih (fun y hy => h y (List.mem_cons_of_mem x hy))
    omega

/-! ### Claim theorems -/

/-- C1: a text that survives the null/length/placeholder/word-count/
alpha-ratio checks passes the classifier iff its keyword match count meets
the length-dependent threshold (normalized length > 50 requires two
matches, otherwise one); and the spec's example sentence passes at the
default parameters. -/
theorem classifier_keyword_threshold (text : List Char)
    (mw man mad ml : Nat)
    (h1 : pyStrip text ≠ [])
    (h2 : ¬ (pyCleaned text).length < ml)
    (h3 : hasXRun (pyCleaned text) = false)
    (h4 : ¬ (pySplit (pyCleaned text)).length < mw)
    (h5 : ¬ (0 < (pyCleaned text).length ∧
        (pyCleaned text).countP Char.isAlpha * mad
          < man * (pyCleaned text).length)) :
    (is_quality_english_core text mw man mad ml = true ↔
      (if 50 < (pyCleaned text).length then 2 else 1) ≤
        countCommonWords ((pyCleaned text).map Char.toLower)) ∧
    is_quality_english (PyObj.scalar (PyScalar.str
      "Please send your bank account number to claim your prize now, congratulations!".data))
      4 1 2 15 = Except.ok true := by
  constructor
  · have h0 : (pyStrip text).isEmpty = false := List.isEmpty_eq_false.mpr h1
    have h3' : ¬ hasXRun (pyCleaned text) = true := by
      rw [h3]
      exact Bool.false_ne_true
    simp only [is_quality_english_core, h0, Bool.false_eq_true, if_false]
    rw [if_neg h2, if_neg h3', if_neg h4, if_neg h5]
    by_cases h50 : 50 < (pyCleaned text).length
    · rw [if_pos h50, if_pos h50, decide_eq_true_iff]
    · rw [if_neg h50, if_neg h50, decide_eq_true_iff]
  · show Except.ok (is_quality_english_core
      "Please send your bank account number to claim your prize now, congratulations!".data
      4 1 2 15) = Except.ok true
    exact congrArg Except.ok (by decide)

/-- Witness for C1: `"please call me now"` survives the preliminary
checks, so the threshold equivalence holds for it concretely. -/
theorem classifier_keyword_threshold_witness :
    (is_quality_english_core "please call me now".data 4 1 2 15 = true ↔
      (if 50 < (pyCleaned "please call me now".data).length then 2 else 1) ≤
        countCommonWords
          ((pyCleaned "please call me now".data).map Char.toLower)) ∧
    is_quality_english (PyObj.scalar (PyScalar.str
      "Please send your bank account number to claim your prize now, congratulations!".data))
      4 1 2 15 = Except.ok true :=
  classifier_keyword_threshold "please call me now".data 4 1 2 15
    (by decide) (by decide) (by decide) (by decide) (by decide)

/-- C2: per row, the reducer appends exactly one record when some cell
passes — the longest passing cell text, ties broken by the first
occurrence in original column order — and nothing otherwise. -/
theorem row_longest_selection (df : DataFrame) (tcols : List String) :
    all_texts df tcols = df.rows.flatMap (fun row =>
      let ts := row_texts df.cols tcols row
      if ts.isEmpty then [] else [ firstMaxByLen ts]) := by
  unfold all_texts
  congr 1
  funext row
  by_cases h : (row_texts df.cols tcols row).isEmpty
  · simp only [h, if_true]
  · simp only [h, Bool.false_eq_true, if_false,
      longest_text_eq_firstMaxByLen]

/-- C3: the collected records are deduplicated by exact string equality in
first-seen order, so the final output has no two identical entries, is an
order-preserving selection of the collected records, and has at most one
entry per original row. -/
theorem output_dedup_first_seen (df : DataFrame) (tc : Option (List String)) :
    extract_core df tc =
      firstSeenDedup (all_texts df (resolve_text_columns df.cols tc)) ∧
    (extract_core df tc).Nodup ∧
    (extract_core df tc).Sublist
      (all_texts df (resolve_text_columns df.cols tc)) ∧
    (extract_core df tc).length ≤ df.rows.length := by
  refine ⟨drop_duplicates_eq_firstSeenDedup _, nodup_dedupAux _ _,
    dedupAux_sublist _ _, ?_⟩
  have h1 : (extract_core df tc).length ≤
      (all_texts df (resolve_text_columns df.cols tc)).length :=
    (dedupAux_sublist [] _).length_le
  have h2 : (all_texts df (resolve_text_columns df.cols tc)).length ≤
      df.rows.length := by
    unfold all_texts
    refine length_flatMap_le_of_piece_le_one _ _ ?_
    intro row _
    by_cases h : (row_texts df.cols (resolve_text_columns df.cols tc)
        row).isEmpty
    · simp only [h, if_true, List.length_nil]
      omega
    · simp only [h, Bool.false_eq_true, if_false, List.length_cons,
        List.length_nil]
      omega
  omega

/-- C4: whitespace normalization never lengthens a string, so every string
shorter than `min_length` is rejected by the classifier. -/
theorem short_text_rejected (s : List Char) (mw man mad ml : Nat)
    (h : s.length < ml) :
    (pyCleaned s).length ≤ s.length ∧
    is_quality_english (PyObj.scalar (PyScalar.str s)) mw man mad ml =
      Except.ok false := by
  refine ⟨length_pyCleaned_le s, ?_⟩
  show Except.ok (is_quality_english_core s mw man mad ml) = Except.ok false
  congr 1
  simp only [is_quality_english_core]
  by_cases h0 : (pyStrip s).isEmpty = true
  · rw [if_pos h0]
  · rw [if_neg h0,
      if_pos (Nat.lt_of_le_of_lt (length_pyCleaned_le s) h)]

/-- Witness for C4: `"ok"` is shorter than the default `min_length` 15 and
is rejected. -/
theorem short_text_rejected_witness :
    ("ok".data.length < 15) ∧
    ((pyCleaned "ok".data).length ≤ "ok".data.length ∧
      is_quality_english (PyObj.scalar (PyScalar.str "ok".data)) 4 1 2 15 =
        Except.ok false) :=
  ⟨by decide, short_text_rejected "ok".data 4 1 2 15 (by decide)⟩

/-- C5: a run of five consecutive `'X'` anywhere in the raw string
survives normalization, so the classifier rejects the string regardless of
its other content. -/
theorem placeholder_run_rejected (s : List Char) (mw man mad ml : Nat)
    (h : List.replicate 5 'X' <:+: s) :
    is_quality_english (PyObj.scalar (PyScalar.str s)) mw man mad ml =
      Except.ok false := by
  have hns : ∀ c ∈ List.replicate 5 'X', pyIsSpace c = false := by
    intro c hc
    rw [List.eq_of_mem_replicate hc]
    rfl
  have hne : List.replicate 5 'X' ≠ [] := by decide
  have hx : hasXRun (pyCleaned s) = true := by
    rw [hasXRun, seqInfixOf_iff]
    exact pyCleaned_preserves_nonspace _ hne hns s h
  show Except.ok (is_quality_english_core s mw man mad ml) = Except.ok false
  congr 1
  simp only [is_quality_english_core]
  by_cases h0 : (pyStrip s).isEmpty = true
  · rw [if_pos h0]
  · by_cases h1 : (pyCleaned s).length < ml
    · rw [if_neg h0, if_pos h1]
    · rw [if_neg h0, if_neg h1, if_pos hx]

/-- Witness for C5: the spec's placeholder example is rejected. -/
theorem placeholder_run_rejected_witness :
    (List.replicate 5 'X' <:+: "XXXXXXXXXX urgent call now".data) ∧
    is_quality_english
      (PyObj.scalar (PyScalar.str "XXXXXXXXXX urgent call now".data))
      4 1 2 15 = Except.ok false :=
  ⟨by decide,
   placeholder_run_rejected "XXXXXXXXXX urgent call now".data 4 1 2 15
     (by decide)⟩

/-- C6: the reducer scans exactly the caller-provided columns when they
all occur in the source; with no provided list, or with any provided name
missing, it scans all source columns. -/
theorem column_fallback (dfCols cs : List String) :
    resolve_text_columns dfCols Option.none = dfCols ∧
    ((∀ c ∈ cs, dfCols.contains c = true) →
      resolve_text_columns dfCols (Option.some cs) = cs) ∧
    ((¬ ∀ c ∈ cs, dfCols.contains c = true) →
      resolve_text_columns dfCols (Option.some cs) = dfCols) := by
  refine ⟨rfl, ?_, ?_⟩
  · intro h
    have hall : (cs.all fun c => dfCols.contains c) = true :=
      List.all_eq_true.mpr h
    show (if (cs.all fun c => dfCols.contains c) = true then cs else dfCols) = cs
    rw [if_pos hall]
  · intro h
    have hall : ¬ (cs.all fun c => dfCols.contains c) = true :=
      fun hall => h (List.all_eq_true.mp hall)
    show (if (cs.all fun c => dfCols.contains c) = true then cs else dfCols) =
      dfCols
    rw [if_neg hall]

/-- Witness for C6: an existing provided column is kept; a missing one
triggers the fall back to all columns. -/
theorem column_fallback_witness :
    resolve_text_columns ["a", "b"] (Option.some ["b"]) = ["b"] ∧
    resolve_text_columns ["a", "b"] (Option.some ["z"]) = ["a", "b"] :=
  ⟨(column_fallback ["a", "b"] ["b"]).2.1 (by decide),
   (column_fallback ["a", "b"] ["z"]).2.2 (by decide)⟩

/-- C7: the three parse attempts are tried in fixed order, the first
success wins, and when all three fail the propagated error is the third
attempt's own error. -/
theorem parse_fallback_chain :
    (∀ (df : DataFrame) (r2 r3 : Except PyErr DataFrame),
        read_csv_chain (Except.ok df) r2 r3 = Except.ok df) ∧
    (∀ (e1 : PyErr) (df : DataFrame) (r3 : Except PyErr DataFrame),
        read_csv_chain (Except.error e1) (Except.ok df) r3 = Except.ok df) ∧
    (∀ (e1 e2 : PyErr) (r3 : Except PyErr DataFrame),
        read_csv_chain (Except.error e1) (Except.error e2) r3 = r3) ∧
    (∀ (e1 e2 e3 : PyErr) (tc : Option (List String)),
        extract_quality_english_text (Except.error e1) (Except.error e2)
          (Except.error e3) tc = Except.error e3) :=
  ⟨fun _ _ _ => rfl, fun _ _ _ => rfl, fun _ _ _ => rfl, fun _ _ _ _ => rfl⟩

/-- C8: with zero loaded rows the retention report divides by zero, so the
extraction fails instead of completing — for any column set and any
requested columns. -/
theorem empty_source_zero_division (cols : List String)
    (r2 r3 : Except PyErr DataFrame) (tc : Option (List String)) :
    extract_quality_english_text (Except.ok (DataFrame.mk cols [])) r2 r3 tc =
      Except.error PyErr.zeroDivision := rfl

/-- C9 counterexample: on a composite (list) value, the `pd.isna` call of
line 14 yields a boolean array whose coercion to `bool` raises, so the
classifier does not return a boolean. -/
theorem classifier_raises_on_list :
    is_quality_english
      (PyObj.list [PyScalar.str "hello".data, PyScalar.str "world".data])
      4 1 2 15 = Except.error PyErr.truthAmbiguous := rfl

/-- C9 (amended): on every scalar input — null, NaN, number or string —
the classifier never raises and returns a boolean. -/
theorem classifier_total_on_scalars (v : PyScalar) (mw man mad ml : Nat) :
    ∃ b : Bool, is_quality_english (PyObj.scalar v) mw man mad ml =
      Except.ok b := by
  cases v with
  | none => exact ⟨false, rfl⟩
  | nan => exact ⟨false, rfl⟩
  | int n => exact ⟨false, rfl⟩
  | str s => exact ⟨is_quality_english_core s mw man mad ml, rfl⟩

/-- One of two cell texts that differ only in internal whitespace. -/
def wsVariantA : List Char := "please send money now".data

/-- The other cell text: the same words with a doubled space. -/
def wsVariantB : List Char := "please  send money now".data

/-- A two-row, one-column DataFrame holding the two whitespace variants. -/
def wsExampleDf : DataFrame :=
  DataFrame.mk ["text"] [[PyScalar.str wsVariantA], [PyScalar.str wsVariantB]]

/-- C10: a passing string cell is appended verbatim (never the normalized
form), and two passing cells differing only in whitespace both survive
deduplication, because deduplication compares the unnormalized strings. -/
theorem output_keeps_raw_whitespace :
    (∀ s : List Char, processCell (PyScalar.str s) = Option.some s ∨
      processCell (PyScalar.str s) = Option.none) ∧
    extract_core wsExampleDf Option.none = [wsVariantA, wsVariantB] ∧
    wsVariantA ≠ wsVariantB ∧
    pyCleaned wsVariantA = pyCleaned wsVariantB := by
  refine ⟨?_, by decide, by decide, by decide⟩
  intro s
  simp only [processCell, cellToText]
  by_cases h1 : non_text_sentinels.contains (pyStrip s) = true
  · right
    rw [if_pos h1]
  · rw [if_neg h1]
    by_cases h2 : is_quality_english_core s 4 1 2 15 = true
    · left
      rw [if_pos h2]
    · right
      rw [if_neg h2]
